import Mathlib

/-!
# Verification of the telegram rate-limiter middleware

A shallow embedding of the final iteration of the plugin source
(`traefik_telegram_ratelimiter`): the expiring hit-counter store
(`expiryMap` with its circular eviction queue and id index), the
admission decider (`rejectedTgID`), list reloading (`updateLists`),
construction (`New`) and the management endpoint (`serveManagement`).

Modelling conventions:
* Go `int64` / `int32` values are Lean `Int`s; the only arithmetic that
  can overflow in the embedded code is the `hits++` increment on an
  `int32` field, which is modelled by `wrap32` (two's-complement
  wrap-around at 32 bits), and Go `%` on the non-negative `head`/`size`
  values, which agrees with `Nat.mod`.
* The Go map `idxs map[int64]int` is an association list with unique
  keys: `idxStore` overwrites, `idxErase` deletes, `idxLookup` looks up.
* The Go slice `hits []expiryHits` is a total function `Nat → expiryHits`
  updated with `updSlot`; all accesses performed by the code stay below
  `cap`, so out-of-range behaviour never matters.
* `time.Now().UTC().Unix()` is passed in explicitly as a `now` argument
  (a single observation per operation).
* File / URL list sources are modelled by their fetch outcome:
  `none` = not configured, `some (Except.error ())` = the fetch or read
  fails, `some (Except.ok ids)` = it succeeds with the parsed id list.
-/

/-- `isDeletedID int64 = -1 << 63`: the sentinel marking a queue slot whose
id mapping is already gone. -/
def isDeletedID : Int := -(2 ^ 63)

/-- Two's-complement wrap-around of an `int32` value. -/
def wrap32 (x : Int) : Int := (x + 2 ^ 31) % 2 ^ 32 - 2 ^ 31

/-- `type expiryHits struct { id int64; hits int32; expires int64 }` -/
structure expiryHits where
  id : Int
  hits : Int
  expires : Int
deriving Repr, DecidableEq

/-- The zero value a fresh Go `expiryHits` slot holds. -/
def zeroHits : expiryHits := ⟨0, 0, 0⟩

/-- Lookup in the `idxs` Go map (`idx, ok := e.idxs[id]`). -/
def idxLookup : List (Int × Nat) → Int → Option Nat
  | [], _ => none
  | (k, v) :: rest, id => if k = id then some v else idxLookup rest id

/-- Deletion from the `idxs` Go map (`delete(e.idxs, id)`). -/
def idxErase (l : List (Int × Nat)) (id : Int) : List (Int × Nat) :=
  l.filter (fun p => p.1 ≠ id)

/-- Assignment in the `idxs` Go map (`e.idxs[id] = idx`): overwrites any
previous binding of the key. -/
def idxStore (l : List (Int × Nat)) (id : Int) (idx : Nat) : List (Int × Nat) :=
  (id, idx) :: idxErase l id

/-- Point update of the `hits` slice (`e.hits[i] = v`). -/
def updSlot (f : Nat → expiryHits) (i : Nat) (v : expiryHits) : Nat → expiryHits :=
  fun j => if j = i then v else f j

/-- `type expiryMap struct` — the expiring hit-counter store: capacity,
id index, circular slot array, head of the queue and its size. -/
structure expiryMap where
  cap : Nat
  idxs : List (Int × Nat)
  hits : Nat → expiryHits
  head : Nat
  size : Nat

/-- `newExpiryMap(capacity)`: empty index, zeroed slots, empty queue. -/
def newExpiryMap (capacity : Nat) : expiryMap :=
  { cap := capacity, idxs := [], hits := fun _ => zeroHits, head := 0, size := 0 }

/-- `full()` — whether the circular queue is full. -/
def expiryMap.full (e : expiryMap) : Bool := e.size == e.cap

/-- One iteration of the loop body of `free`: pop the record at `head`,
deleting its id mapping unless the slot was already marked deleted. -/
def expiryMap.freeStep (e : expiryMap) : expiryMap :=
  if (e.hits e.head).id = isDeletedID then
    { e with head := (e.head + 1) % e.cap, size := e.size - 1 }
  else
    { e with idxs := idxErase e.idxs (e.hits e.head).id,
             hits := updSlot e.hits e.head { e.hits e.head with id := isDeletedID },
             head := (e.head + 1) % e.cap,
             size := e.size - 1 }

/-- `free(count)` — removes up to `count` items from the start of the
circular queue together with their id mappings, stopping early when the
queue is empty. -/
def expiryMap.free (e : expiryMap) : Nat → expiryMap
  | 0 => e
  | n + 1 => if e.size = 0 then e else (e.freeStep).free n

/-- The tail of `insert` after the capacity check: place the new record
at the next free slot and record its id mapping. -/
def expiryMap.place (e1 : expiryMap) (x : expiryHits) : expiryMap :=
  { e1 with idxs := idxStore e1.idxs x.id ((e1.head + e1.size) % e1.cap),
            hits := updSlot e1.hits ((e1.head + e1.size) % e1.cap) x,
            size := e1.size + 1 }

/-- `insert(h)` — inserts one item into the circular queue (evicting the
oldest item first when full) and records its id mapping. -/
def expiryMap.insert (e : expiryMap) (h : expiryHits) : expiryMap :=
  (if e.full then e.free 1 else e).place h

/-- `incNGet(id, expire)` — increments and returns the number of hits of
the given id, creating a fresh entry (count 1, expiry `now + expire`)
when none exists or the existing one has expired. -/
def expiryMap.incNGet (e : expiryMap) (id expire now : Int) : expiryMap × Int :=
  match idxLookup e.idxs id with
  | none => (e.insert ⟨id, 1, now + expire⟩, 1)
  | some idx =>
    let r0 := e.hits idx
    if r0.expires < now then
      let e1 : expiryMap :=
        { e with idxs := idxErase e.idxs id,
                 hits := updSlot e.hits idx { r0 with id := isDeletedID } }
      (e1.insert ⟨id, 1, now + expire⟩, 1)
    else
      let newH := wrap32 (r0.hits + 1)
      ({ e with hits := updSlot e.hits idx { r0 with hits := newH } }, newH)

/-- `get(id)` — the number of hits of the given id, `0` when absent or
expired; does not mutate the store. -/
def expiryMap.get (e : expiryMap) (id now : Int) : Int :=
  match idxLookup e.idxs id with
  | none => 0
  | some idx => if (e.hits idx).expires < now then 0 else (e.hits idx).hits

/-- `reset(id)` — zeroes the hit counter of the given id when its mapping
exists, returning whether it was found. -/
def expiryMap.reset (e : expiryMap) (id : Int) : expiryMap × Bool :=
  match idxLookup e.idxs id with
  | none => (e, false)
  | some idx =>
    ({ e with hits := updSlot e.hits idx { e.hits idx with hits := 0 } }, true)

/-- The outcome of fetching one configured id-list source. -/
abbrev srcOutcome := Option (Except Unit (List Int))

/-- `type Config struct` — the plugin configuration, with the four list
sources replaced by their fetch outcomes and the management listener by
its `net.Listen` outcome. -/
structure Config where
  hitTableSize : Int
  limit : Int
  whitelistLimit : Int
  expire : Int
  whitelist : srcOutcome
  whitelistURL : srcOutcome
  blacklist : srcOutcome
  blacklistURL : srcOutcome
  console : Bool
  consoleListen : Except Unit Unit

/-- `type rateLimiter struct` — the filter state the request path and the
management endpoint share. -/
structure rateLimiter where
  config : Config
  expire : Int
  limit : Int
  wlLimit : Int
  whitelist : List Int
  blacklist : List Int
  hits : expiryMap

/-- `readIDFile` / `readIDURL` on one configured source: unconfigured
sources contribute nothing, a failed fetch is an error, a successful one
appends its ids to the accumulating set. -/
def readSrc (src : srcOutcome) (m : List Int) : Except Unit (List Int) :=
  match src with
  | none => Except.ok m
  | some (Except.error e) => Except.error e
  | some (Except.ok ids) => Except.ok (m ++ ids)

/-- `updateLists()` — rebuilds both lists from their configured sources;
on the first failure it returns with the error (`Bool` flag `true`)
leaving both lists untouched, on full success it swaps both in at once. -/
def updateLists (r : rateLimiter) : rateLimiter × Bool :=
  match readSrc r.config.whitelist [] with
  | Except.error _ => (r, true)
  | Except.ok wl1 =>
    match readSrc r.config.whitelistURL wl1 with
    | Except.error _ => (r, true)
    | Except.ok wl =>
      match readSrc r.config.blacklist [] with
      | Except.error _ => (r, true)
      | Except.ok bl1 =>
        match readSrc r.config.blacklistURL bl1 with
        | Except.error _ => (r, true)
        | Except.ok bl => ({ r with whitelist := wl, blacklist := bl }, false)

/-- `New(ctx, next, config, name)` — fails on a non-positive hit-table
size, builds the filter, runs `updateLists` discarding its result (as the
source does on line `r.updateLists()`), and fails only when the optional
management listener cannot be started. -/
def New (c : Config) : Except Unit rateLimiter :=
  if c.hitTableSize ≤ 0 then Except.error ()
  else
    let r0 : rateLimiter :=
      { config := c, expire := c.expire, limit := c.limit,
        wlLimit := c.whitelistLimit, whitelist := [], blacklist := [],
        hits := newExpiryMap c.hitTableSize.toNat }
    let r1 := (updateLists r0).1
    if c.console then
      match c.consoleListen with
      | Except.error e => Except.error e
      | Except.ok _ => Except.ok r1
    else Except.ok r1

/-- `rejectedTgID(tgID)` — the admission decision: blacklisted ids are
rejected without touching the store; otherwise the store counts the hit
and the applicable limit (whitelist or regular) is enforced. Returns the
decision together with the updated filter state. -/
def rejectedTgID (r : rateLimiter) (tgID now : Int) : Bool × rateLimiter :=
  if tgID ∈ r.blacklist then (true, r)
  else
    let isWl := tgID ∈ r.whitelist
    let p := r.hits.incNGet tgID r.expire now
    let r1 : rateLimiter := { r with hits := p.1 }
    if isWl then
      (decide (0 ≤ r.wlLimit) && decide (r.wlLimit < p.2), r1)
    else
      (decide (0 ≤ r.limit) && decide (r.limit < p.2), r1)

/-- HTTP methods distinguished by `serveManagement`. -/
inductive Method where
  | GET | POST | PUT | DELETE | OTHER
deriving Repr, DecidableEq

/-- Decimal digit accumulator of `strconv.ParseInt`. -/
def parseDigitsAux : List Char → Nat → Option Nat
  | [], acc => some acc
  | c :: cs, acc =>
    if '0' ≤ c ∧ c ≤ '9' then
      parseDigitsAux cs (acc * 10 + (c.toNat - '0'.toNat))
    else none

/-- `strconv.ParseInt(s, 10, _)` restricted to the range `[lo, hi]`:
an optional sign, at least one digit, and a range check. -/
def parseIntRange (s : String) (lo hi : Int) : Option Int :=
  let p : Bool × List Char :=
    match s.data with
    | '-' :: rest => (true, rest)
    | '+' :: rest => (false, rest)
    | cs => (false, cs)
  match p.2 with
  | [] => none
  | ds =>
    match parseDigitsAux ds 0 with
    | none => none
    | some n =>
      let v : Int := if p.1 then -(n : Int) else (n : Int)
      if lo ≤ v ∧ v ≤ hi then some v else none

/-- `parseTgID(s)` — `strconv.ParseInt(s, 10, 64)`. -/
def parseTgID (s : String) : Option Int :=
  parseIntRange s (-(2 ^ 63)) (2 ^ 63 - 1)

/-- `serveManagement` — the management endpoint: takes the already-split
path segments, the method, the request body and the observation time,
and returns the HTTP status code together with the updated filter state.
A handler that returns without writing anything is reported by `net/http`
as a `200 OK` with an empty body, which is what the per-id hits path does
on an unsupported method. -/
def serveManagement (r : rateLimiter) (p : List String) (m : Method)
    (body : String) (now : Int) : Nat × rateLimiter :=
  match p, m with
  | ["reload"], Method.POST => (204, (updateLists r).1)
  | ["hits"], Method.GET => (200, r)
  | ["hits", s], _ =>
    match parseTgID s with
    | none => (400, r)
    | some id =>
      match m with
      | Method.GET => (200, r)
      | Method.DELETE => (204, { r with hits := (r.hits.reset id).1 })
      | _ => (200, r)
  | ["list", w, s], _ =>
    match parseTgID s with
    | none => (400, r)
    | some id =>
      if w = "bl" then
        match m with
        | Method.GET => (200, r)
        | Method.DELETE =>
          (204, { r with blacklist := r.blacklist.filter (fun x => x ≠ id) })
        | Method.PUT => (201, { r with blacklist := id :: r.blacklist })
        | _ => (405, r)
      else if w = "wl" then
        match m with
        | Method.GET => (200, r)
        | Method.DELETE =>
          (204, { r with whitelist := r.whitelist.filter (fun x => x ≠ id) })
        | Method.PUT => (201, { r with whitelist := id :: r.whitelist })
        | _ => (405, r)
      else (400, r)
  | [s], _ =>
    if s = "limit" ∨ s = "wllimit" then
      match m with
      | Method.PUT =>
        match parseIntRange body (-(2 ^ 31)) (2 ^ 31 - 1) with
        | none => (400, r)
        | some v =>
          (204, if s = "limit" then { r with limit := v } else { r with wlLimit := v })
      | Method.GET => (200, r)
      | _ => (405, r)
    else (404, r)
  | _, _ => (404, r)

example : (newExpiryMap 2).cap = 2 := rfl

example :
    (((newExpiryMap 2).incNGet 5 10 0).1.incNGet 5 10 3).2 = 2 := by decide

example :
    (((newExpiryMap 2).incNGet 5 10 0).1.incNGet 5 10 11).2 = 1 := by decide

example : parseTgID "123" = some 123 := by decide

example : parseTgID "12a" = none := by decide

example : parseTgID "-45" = some (-45) := by decide

example : parseTgID "" = none := by decide

/-! ## Basic lemmas about the map, slot and arithmetic helpers -/

theorem idxLookup_mem {l : List (Int × Nat)} {k : Int} {v : Nat}
    (h : idxLookup l k = some v) : (k, v) ∈ l := by
  induction l with
  | nil => simp [idxLookup] at h
  | cons p rest ih =>
    rw [idxLookup] at h
    by_cases hk : p.1 = k
    · cases p with
      | mk a b =>
        simp only at hk
        subst hk
        simp only [if_pos rfl] at h
        cases h
        exact List.mem_cons_self _ _
    · cases p with
      | mk a b =>
        simp only at hk
        rw [if_neg hk] at h
        exact List.mem_cons_of_mem _ (ih h)

theorem mem_idxErase {l : List (Int × Nat)} {k : Int} {p : Int × Nat} :
    p ∈ idxErase l k ↔ p ∈ l ∧ p.1 ≠ k := by
  simp [idxErase, List.mem_filter]

@[simp] theorem idxLookup_erase_self (l : List (Int × Nat)) (k : Int) :
    idxLookup (idxErase l k) k = none := by
  induction l with
  | nil => rfl
  | cons p rest ih =>
    by_cases hk : p.1 = k
    · simpa [idxErase, hk] using ih
    · simpa [idxErase, idxLookup, hk] using ih

theorem idxErase_cons (p : Int × Nat) (rest : List (Int × Nat)) (k : Int) :
    idxErase (p :: rest) k =
      if p.1 = k then idxErase rest k else p :: idxErase rest k := by
  by_cases hk : p.1 = k <;> simp [idxErase, hk]

theorem idxLookup_erase_ne {l : List (Int × Nat)} {k k' : Int} (h : k' ≠ k) :
    idxLookup (idxErase l k) k' = idxLookup l k' := by
  induction l with
  | nil => rfl
  | cons p rest ih =>
    rw [idxErase_cons]
    by_cases hk : p.1 = k
    · have hpk : p.1 ≠ k' := by rw [hk]; exact fun hc => h hc.symm
      simp [hk, idxLookup, hpk, ih, Ne.symm h]
    · by_cases hp : p.1 = k'
      · simp [h, idxLookup, hp]
      · simp [hk, idxLookup, hp, ih]

@[simp] theorem idxLookup_store_self (l : List (Int × Nat)) (k : Int) (v : Nat) :
    idxLookup (idxStore l k v) k = some v := by
  simp [idxStore, idxLookup]

theorem idxLookup_store_ne {l : List (Int × Nat)} {k k' : Int} {v : Nat}
    (h : k' ≠ k) : idxLookup (idxStore l k v) k' = idxLookup l k' := by
  have : k ≠ k' := fun hc => h hc.symm
  simp [idxStore, idxLookup, this, idxLookup_erase_ne h]

theorem keys_nodup_idxErase {l : List (Int × Nat)} {k : Int}
    (h : (l.map Prod.fst).Nodup) : ((idxErase l k).map Prod.fst).Nodup := by
  have hsub : List.Sublist (idxErase l k) l := List.filter_sublist l
  exact (hsub.map Prod.fst).nodup h

theorem keys_nodup_idxStore {l : List (Int × Nat)} {k : Int} {v : Nat}
    (h : (l.map Prod.fst).Nodup) : ((idxStore l k v).map Prod.fst).Nodup := by
  rw [idxStore, List.map_cons, List.nodup_cons]
  refine ⟨?_, keys_nodup_idxErase h⟩
  intro hmem
  rcases List.mem_map.1 hmem with ⟨p, hp, hk⟩
  exact (mem_idxErase.1 hp).2 hk

theorem key_inj_of_nodup {l : List (Int × Nat)} {p q : Int × Nat}
    (hnd : (l.map Prod.fst).Nodup) (hp : p ∈ l) (hq : q ∈ l) (h : p.1 = q.1) :
    p = q := by
  induction l with
  | nil => cases hp
  | cons a rest ih =>
    rw [List.map_cons, List.nodup_cons] at hnd
    rcases List.mem_cons.1 hp with hp1 | hp1 <;>
      rcases List.mem_cons.1 hq with hq1 | hq1
    · rw [hp1, hq1]
    · exfalso
      apply hnd.1
      exact List.mem_map.2 ⟨q, hq1, by rw [← h, hp1]⟩
    · exfalso
      apply hnd.1
      exact List.mem_map.2 ⟨p, hp1, by rw [h, hq1]⟩
    · exact ih hnd.2 hp1 hq1

@[simp] theorem updSlot_same (f : Nat → expiryHits) (i : Nat) (v : expiryHits) :
    updSlot f i v i = v := by simp [updSlot]

theorem updSlot_ne {f : Nat → expiryHits} {i j : Nat} (v : expiryHits)
    (h : j ≠ i) : updSlot f i v j = f j := by simp [updSlot, h]

/-- Positions `(h + j) % cap` of live queue indices are injective in
`j` below `cap`. -/
theorem mod_pos_inj {cap h j j' : Nat} (hj : j < cap) (hj' : j' < cap)
    (heq : (h + j) % cap = (h + j') % cap) : j = j' := by
  have hmod : j % cap = j' % cap := Nat.ModEq.add_left_cancel' h heq
  rwa [Nat.mod_eq_of_lt hj, Nat.mod_eq_of_lt hj'] at hmod

theorem mod_shift {cap h j : Nat} (hj : 1 ≤ j) :
    ((h + 1) % cap + (j - 1)) % cap = (h + j) % cap := by
  rw [Nat.mod_add_mod]
  congr 1
  omega

theorem wrap32_small {x : Int} (h1 : -(2 ^ 31) ≤ x) (h2 : x < 2 ^ 31) :
    wrap32 x = x := by
  unfold wrap32
  norm_num at h1 h2 ⊢
  omega

theorem wrap32_wrap_add (x y : Int) : wrap32 (wrap32 x + y) = wrap32 (x + y) := by
  unfold wrap32
  norm_num
  omega

/-! ## Equation lemmas for the store operations -/

@[simp] theorem place_cap (e1 : expiryMap) (x : expiryHits) :
    (e1.place x).cap = e1.cap := rfl

@[simp] theorem place_head (e1 : expiryMap) (x : expiryHits) :
    (e1.place x).head = e1.head := rfl

@[simp] theorem place_size (e1 : expiryMap) (x : expiryHits) :
    (e1.place x).size = e1.size + 1 := rfl

@[simp] theorem place_idxs (e1 : expiryMap) (x : expiryHits) :
    (e1.place x).idxs = idxStore e1.idxs x.id ((e1.head + e1.size) % e1.cap) := rfl

@[simp] theorem place_hits (e1 : expiryMap) (x : expiryHits) :
    (e1.place x).hits = updSlot e1.hits ((e1.head + e1.size) % e1.cap) x := rfl

theorem freeStep_cap (e : expiryMap) : e.freeStep.cap = e.cap := by
  unfold expiryMap.freeStep
  split <;> rfl

theorem freeStep_size (e : expiryMap) : e.freeStep.size = e.size - 1 := by
  unfold expiryMap.freeStep
  split <;> rfl

theorem freeStep_head (e : expiryMap) : e.freeStep.head = (e.head + 1) % e.cap := by
  unfold expiryMap.freeStep
  split <;> rfl

theorem free_one {e : expiryMap} (hs : e.size ≠ 0) : e.free 1 = e.freeStep := by
  simp [expiryMap.free, hs]

theorem freeStep_deleted {e : expiryMap} (hdel : (e.hits e.head).id = isDeletedID) :
    e.freeStep = { e with head := (e.head + 1) % e.cap, size := e.size - 1 } := by
  unfold expiryMap.freeStep
  rw [if_pos hdel]

theorem freeStep_kept {e : expiryMap} (hdel : (e.hits e.head).id ≠ isDeletedID) :
    e.freeStep =
      { e with idxs := idxErase e.idxs (e.hits e.head).id,
               hits := updSlot e.hits e.head { e.hits e.head with id := isDeletedID },
               head := (e.head + 1) % e.cap,
               size := e.size - 1 } := by
  unfold expiryMap.freeStep
  rw [if_neg hdel]

theorem insert_full {e : expiryMap} (x : expiryHits) (hf : e.size = e.cap) :
    e.insert x = (e.free 1).place x := by
  unfold expiryMap.insert
  have hb : e.full = true := by simp [expiryMap.full, hf]
  rw [hb, if_pos rfl]

theorem insert_not_full {e : expiryMap} (x : expiryHits) (hf : e.size ≠ e.cap) :
    e.insert x = e.place x := by
  unfold expiryMap.insert
  have hb : e.full = false := by simp [expiryMap.full, hf]
  rw [hb]
  simp only [Bool.false_eq_true, if_false]

theorem incNGet_none {e : expiryMap} {id t now : Int}
    (h : idxLookup e.idxs id = none) :
    e.incNGet id t now = (e.insert ⟨id, 1, now + t⟩, 1) := by
  unfold expiryMap.incNGet
  rw [h]

theorem incNGet_expired {e : expiryMap} {id t now : Int} {idx : Nat}
    (h : idxLookup e.idxs id = some idx)
    (hexp : (e.hits idx).expires < now) :
    e.incNGet id t now =
      (({ e with idxs := idxErase e.idxs id,
                 hits := updSlot e.hits idx { e.hits idx with id := isDeletedID } }
          : expiryMap).insert ⟨id, 1, now + t⟩, 1) := by
  unfold expiryMap.incNGet
  rw [h]
  dsimp only
  rw [if_pos hexp]

theorem incNGet_live {e : expiryMap} {id t now : Int} {idx : Nat}
    (h : idxLookup e.idxs id = some idx)
    (hexp : ¬(e.hits idx).expires < now) :
    e.incNGet id t now =
      ({ e with hits := updSlot e.hits idx
                  { e.hits idx with hits := wrap32 ((e.hits idx).hits + 1) } },
        wrap32 ((e.hits idx).hits + 1)) := by
  unfold expiryMap.incNGet
  rw [h]
  dsimp only
  rw [if_neg hexp]

theorem get_absent {e : expiryMap} {id now : Int}
    (h : idxLookup e.idxs id = none) : e.get id now = 0 := by
  unfold expiryMap.get
  rw [h]

theorem get_found {e : expiryMap} {id now : Int} {idx : Nat}
    (h : idxLookup e.idxs id = some idx) :
    e.get id now = if (e.hits idx).expires < now then 0 else (e.hits idx).hits := by
  unfold expiryMap.get
  rw [h]

theorem reset_absent {e : expiryMap} {id : Int}
    (h : idxLookup e.idxs id = none) : e.reset id = (e, false) := by
  unfold expiryMap.reset
  rw [h]

theorem reset_found {e : expiryMap} {id : Int} {idx : Nat}
    (h : idxLookup e.idxs id = some idx) :
    e.reset id =
      ({ e with hits := updSlot e.hits idx { e.hits idx with hits := 0 } }, true) := by
  unfold expiryMap.reset
  rw [h]

theorem cap_free (e : expiryMap) (n : Nat) : (e.free n).cap = e.cap := by
  induction n generalizing e with
  | zero => rfl
  | succ n ih =>
    rw [expiryMap.free]
    by_cases hs : e.size = 0
    · rw [if_pos hs]
    · rw [if_neg hs, ih, freeStep_cap]

theorem cap_insert {e : expiryMap} {x : expiryHits} : (e.insert x).cap = e.cap := by
  by_cases hf : e.size = e.cap
  · rw [insert_full x hf, place_cap, cap_free]
  · rw [insert_not_full x hf, place_cap]

theorem cap_incNGet {e : expiryMap} {id t now : Int} :
    (e.incNGet id t now).1.cap = e.cap := by
  cases hl : idxLookup e.idxs id with
  | none => rw [incNGet_none hl]; exact cap_insert
  | some idx =>
    by_cases hexp : (e.hits idx).expires < now
    · rw [incNGet_expired hl hexp]; exact cap_insert
    · rw [incNGet_live hl hexp]

theorem cap_reset {e : expiryMap} {id : Int} : (e.reset id).1.cap = e.cap := by
  cases hl : idxLookup e.idxs id with
  | none => rw [reset_absent hl]
  | some idx => rw [reset_found hl]

/-! ## Store invariants -/

/-- `i` is the position of one of the `size` live queue slots. -/
def liveAt (e : expiryMap) (i : Nat) : Prop :=
  ∃ j, j < e.size ∧ i = (e.head + j) % e.cap

/-- The inductive consistency invariant of the store: positive capacity,
head in range, size within capacity, unique index keys, and every index
entry carrying a non-sentinel id mapped to a live slot holding that id. -/
def StoreInv (e : expiryMap) : Prop :=
  0 < e.cap ∧ e.head < e.cap ∧ e.size ≤ e.cap ∧
  (e.idxs.map Prod.fst).Nodup ∧
  ∀ p ∈ e.idxs, p.1 ≠ isDeletedID ∧ liveAt e p.2 ∧ (e.hits p.2).id = p.1

theorem StoreInv_newExpiryMap {c : Nat} (hc : 0 < c) : StoreInv (newExpiryMap c) := by
  refine ⟨hc, hc, Nat.zero_le _, List.nodup_nil, ?_⟩
  intro p hp
  cases hp

theorem StoreInv_freeStep {e : expiryMap} (h : StoreInv e) (hs : 0 < e.size) :
    StoreInv e.freeStep := by
  obtain ⟨hcap, hhead, hsize, hnd, hent⟩ := h
  by_cases hdel : (e.hits e.head).id = isDeletedID
  · rw [freeStep_deleted hdel]
    refine ⟨hcap, Nat.mod_lt _ hcap, le_trans (Nat.sub_le _ _) hsize, hnd, ?_⟩
    intro p hp
    obtain ⟨hid, ⟨j, hj, hpos⟩, hslot⟩ := hent p hp
    have hj0 : j ≠ 0 := by
      intro h0
      subst h0
      have hph : p.2 = e.head := by
        rw [hpos]
        simp [Nat.mod_eq_of_lt hhead]
      exact hid (by rw [← hslot, hph, hdel])
    refine ⟨hid, ⟨j - 1, by show j - 1 < e.size - 1; omega, ?_⟩, hslot⟩
    show p.2 = ((e.head + 1) % e.cap + (j - 1)) % e.cap
    rw [mod_shift (by omega)]
    exact hpos
  · rw [freeStep_kept hdel]
    refine ⟨hcap, Nat.mod_lt _ hcap, le_trans (Nat.sub_le _ _) hsize,
      keys_nodup_idxErase hnd, ?_⟩
    intro p hp
    have hpm := mem_idxErase.1 hp
    obtain ⟨hid, ⟨j, hj, hpos⟩, hslot⟩ := hent p hpm.1
    have hph : p.2 ≠ e.head := by
      intro hc
      exact hpm.2 (by rw [← hslot, hc])
    have hj0 : j ≠ 0 := by
      intro h0
      subst h0
      exact hph (by rw [hpos]; simp [Nat.mod_eq_of_lt hhead])
    refine ⟨hid, ⟨j - 1, by show j - 1 < e.size - 1; omega, ?_⟩, ?_⟩
    · show p.2 = ((e.head + 1) % e.cap + (j - 1)) % e.cap
      rw [mod_shift (by omega)]
      exact hpos
    · show (updSlot e.hits e.head _ p.2).id = p.1
      rw [updSlot_ne _ hph]
      exact hslot

theorem StoreInv_place {e1 : expiryMap} {x : expiryHits} (hI : StoreInv e1)
    (hlt : e1.size < e1.cap) (hid : x.id ≠ isDeletedID) :
    StoreInv (e1.place x) := by
  obtain ⟨hc, hh, hs, hnd, hent⟩ := hI
  refine ⟨hc, hh, by show e1.size + 1 ≤ e1.cap; omega, ?_, ?_⟩
  · rw [place_idxs]
    exact keys_nodup_idxStore hnd
  · intro p hp
    rw [place_idxs, idxStore] at hp
    rcases List.mem_cons.1 hp with hp1 | hp1
    · subst hp1
      refine ⟨hid, ⟨e1.size, ?_, ?_⟩, ?_⟩
      · rw [place_size]
        omega
      · rw [place_head, place_cap]
      · rw [place_hits]
        show (updSlot e1.hits _ x _).id = x.id
        rw [updSlot_same]
    · have hmem := mem_idxErase.1 hp1
      obtain ⟨hpid, ⟨j, hj, hpos⟩, hslot⟩ := hent p hmem.1
      have hne : p.2 ≠ (e1.head + e1.size) % e1.cap := by
        intro hceq
        have hje : j = e1.size := mod_pos_inj (by omega) hlt (by rw [← hpos]; exact hceq)
        omega
      refine ⟨hpid, ⟨j, ?_, ?_⟩, ?_⟩
      · rw [place_size]
        omega
      · rw [place_head, place_cap]
        exact hpos
      · rw [place_hits, updSlot_ne _ hne]
        exact hslot

theorem StoreInv_insert {e : expiryMap} {x : expiryHits} (hI : StoreInv e)
    (hid : x.id ≠ isDeletedID) : StoreInv (e.insert x) := by
  by_cases hf : e.size = e.cap
  · rw [insert_full x hf, free_one (by have := hI.1; omega)]
    refine StoreInv_place (StoreInv_freeStep hI (by have := hI.1; omega)) ?_ hid
    rw [freeStep_size, freeStep_cap]
    have := hI.1
    omega
  · rw [insert_not_full x hf]
    exact StoreInv_place hI (by have := hI.2.2.1; omega) hid

theorem StoreInv_incNGet {e : expiryMap} {id t now : Int} (hI : StoreInv e)
    (hid : id ≠ isDeletedID) : StoreInv (e.incNGet id t now).1 := by
  cases hl : idxLookup e.idxs id with
  | none => rw [incNGet_none hl]; exact StoreInv_insert hI hid
  | some idx =>
    obtain ⟨hcap, hhead, hsize, hnd, hent⟩ := hI
    have hmem : (id, idx) ∈ e.idxs := idxLookup_mem hl
    have hslotid : (e.hits idx).id = id := (hent _ hmem).2.2
    by_cases hexp : (e.hits idx).expires < now
    · rw [incNGet_expired hl hexp]
      apply StoreInv_insert _ hid
      refine ⟨hcap, hhead, hsize, keys_nodup_idxErase hnd, ?_⟩
      intro p hp
      have hpm := mem_idxErase.1 hp
      obtain ⟨hpid, hlive, hslot⟩ := hent p hpm.1
      have hne : p.2 ≠ idx := by
        intro hc
        exact hpm.2 (by rw [← hslot, hc, hslotid])
      refine ⟨hpid, hlive, ?_⟩
      show (updSlot e.hits idx _ p.2).id = p.1
      rw [updSlot_ne _ hne]
      exact hslot
    · rw [incNGet_live hl hexp]
      refine ⟨hcap, hhead, hsize, hnd, ?_⟩
      intro p hp
      obtain ⟨hpid, hlive, hslot⟩ := hent p hp
      by_cases hpe : p.2 = idx
      · refine ⟨hpid, hlive, ?_⟩
        show (updSlot e.hits idx _ p.2).id = p.1
        rw [hpe, updSlot_same]
        show (e.hits idx).id = p.1
        rw [← hpe]
        exact hslot
      · refine ⟨hpid, hlive, ?_⟩
        show (updSlot e.hits idx _ p.2).id = p.1
        rw [updSlot_ne _ hpe]
        exact hslot

theorem StoreInv_reset {e : expiryMap} {id : Int} (hI : StoreInv e) :
    StoreInv (e.reset id).1 := by
  cases hl : idxLookup e.idxs id with
  | none => rw [reset_absent hl]; exact hI
  | some idx =>
    rw [reset_found hl]
    obtain ⟨hcap, hhead, hsize, hnd, hent⟩ := hI
    refine ⟨hcap, hhead, hsize, hnd, ?_⟩
    intro p hp
    obtain ⟨hpid, hlive, hslot⟩ := hent p hp
    by_cases hpe : p.2 = idx
    · refine ⟨hpid, hlive, ?_⟩
      show (updSlot e.hits idx _ p.2).id = p.1
      rw [hpe, updSlot_same]
      show (e.hits idx).id = p.1
      rw [← hpe]
      exact hslot
    · refine ⟨hpid, hlive, ?_⟩
      show (updSlot e.hits idx _ p.2).id = p.1
      rw [updSlot_ne _ hpe]
      exact hslot

/-- The unconditional part of the invariant: it holds for arbitrary ids,
including the sentinel itself. -/
def WInv (e : expiryMap) : Prop :=
  0 < e.cap ∧ e.head < e.cap ∧ e.size ≤ e.cap

theorem WInv_freeStep {e : expiryMap} (h : WInv e) : WInv e.freeStep := by
  obtain ⟨hc, hh, hs⟩ := h
  refine ⟨?_, ?_, ?_⟩
  · rw [freeStep_cap]; exact hc
  · rw [freeStep_head, freeStep_cap]; exact Nat.mod_lt _ hc
  · rw [freeStep_size, freeStep_cap]; omega

theorem WInv_insert {e : expiryMap} {x : expiryHits} (h : WInv e) :
    WInv (e.insert x) := by
  obtain ⟨hc, hh, hs⟩ := h
  by_cases hf : e.size = e.cap
  · rw [insert_full x hf, free_one (by omega)]
    have h2 := WInv_freeStep ⟨hc, hh, hs⟩
    obtain ⟨hc2, hh2, _⟩ := h2
    refine ⟨by rw [place_cap]; exact hc2, by rw [place_head, place_cap]; exact hh2, ?_⟩
    rw [place_size, place_cap, freeStep_size, freeStep_cap]
    omega
  · rw [insert_not_full x hf]
    exact ⟨hc, hh, by rw [place_size, place_cap]; omega⟩

theorem WInv_incNGet {e : expiryMap} {id t now : Int} (h : WInv e) :
    WInv (e.incNGet id t now).1 := by
  cases hl : idxLookup e.idxs id with
  | none => rw [incNGet_none hl]; exact WInv_insert h
  | some idx =>
    by_cases hexp : (e.hits idx).expires < now
    · rw [incNGet_expired hl hexp]
      exact WInv_insert h
    · rw [incNGet_live hl hexp]
      exact h

theorem WInv_reset {e : expiryMap} {id : Int} (h : WInv e) : WInv (e.reset id).1 := by
  cases hl : idxLookup e.idxs id with
  | none => rw [reset_absent hl]; exact h
  | some idx => rw [reset_found hl]; exact h

/-! ## Sequences of store operations -/

/-- One call into the store: a counted hit, a read, or a counter reset. -/
inductive storeOp where
  | inc (id expire now : Int)
  | read (id now : Int)
  | clear (id : Int)

/-- The state left behind by one store call. -/
def storeOp.apply (e : expiryMap) : storeOp → expiryMap
  | storeOp.inc id t now => (e.incNGet id t now).1
  | storeOp.read _ _ => e
  | storeOp.clear id => (e.reset id).1

/-- The id a store call is about. -/
def storeOp.opId : storeOp → Int
  | storeOp.inc id _ _ => id
  | storeOp.read id _ => id
  | storeOp.clear id => id

/-- Run a sequence of store calls. -/
def runOps (e : expiryMap) (ops : List storeOp) : expiryMap :=
  ops.foldl storeOp.apply e

theorem runOps_nil (e : expiryMap) : runOps e [] = e := rfl

theorem runOps_cons (e : expiryMap) (op : storeOp) (ops : List storeOp) :
    runOps e (op :: ops) = runOps (storeOp.apply e op) ops := rfl

theorem StoreInv_apply {e : expiryMap} {op : storeOp} (hI : StoreInv e)
    (hid : op.opId ≠ isDeletedID) : StoreInv (storeOp.apply e op) := by
  cases op with
  | inc id t now => exact StoreInv_incNGet hI hid
  | read id now => exact hI
  | clear id => exact StoreInv_reset hI

theorem WInv_apply {e : expiryMap} {op : storeOp} (h : WInv e) :
    WInv (storeOp.apply e op) := by
  cases op with
  | inc id t now => exact WInv_incNGet h
  | read id now => exact h
  | clear id => exact WInv_reset h

theorem StoreInv_runOps {ops : List storeOp} {e : expiryMap} (hI : StoreInv e)
    (hids : ∀ op ∈ ops, storeOp.opId op ≠ isDeletedID) :
    StoreInv (runOps e ops) := by
  induction ops generalizing e with
  | nil => exact hI
  | cons op ops ih =>
    rw [runOps_cons]
    exact ih (StoreInv_apply hI (hids op (List.mem_cons_self _ _)))
      (fun o ho => hids o (List.mem_cons_of_mem _ ho))

theorem WInv_runOps {ops : List storeOp} {e : expiryMap} (h : WInv e) :
    WInv (runOps e ops) := by
  induction ops generalizing e with
  | nil => exact h
  | cons op ops ih =>
    rw [runOps_cons]
    exact ih (WInv_apply h)

theorem cap_apply (e : expiryMap) (op : storeOp) :
    (storeOp.apply e op).cap = e.cap := by
  cases op with
  | inc id t now => exact cap_incNGet
  | read id now => rfl
  | clear id => exact cap_reset

theorem cap_runOps (e : expiryMap) (ops : List storeOp) :
    (runOps e ops).cap = e.cap := by
  induction ops generalizing e with
  | nil => rfl
  | cons op ops ih =>
    rw [runOps_cons, ih, cap_apply]

/-- Under the consistency invariant the id index cannot outgrow the
queue capacity: distinct keys occupy distinct live slots. -/
theorem idxs_length_le_cap {e : expiryMap} (hI : StoreInv e) :
    e.idxs.length ≤ e.cap := by
  obtain ⟨hc, hh, hs, hnd, hent⟩ := hI
  have hnd2 : (e.idxs.map Prod.snd).Nodup := by
    refine List.Nodup.map_on ?_ (List.Nodup.of_map Prod.fst hnd)
    intro p hp q hq hpq
    have hkey : p.1 = q.1 := by
      rw [← (hent p hp).2.2, ← (hent q hq).2.2, hpq]
    exact key_inj_of_nodup hnd hp hq hkey
  have hmem : ∀ i ∈ e.idxs.map Prod.snd, i < e.cap := by
    intro i hi
    rcases List.mem_map.1 hi with ⟨p, hp, hpi⟩
    obtain ⟨j, hj, hpos⟩ := (hent p hp).2.1
    rw [← hpi, hpos]
    exact Nat.mod_lt _ hc
  calc e.idxs.length = (e.idxs.map Prod.snd).length := (List.length_map _ _).symm
    _ = (e.idxs.map Prod.snd).toFinset.card :=
        (List.toFinset_card_of_nodup hnd2).symm
    _ ≤ (Finset.range e.cap).card := by
        apply Finset.card_le_card
        intro i hi
        rw [Finset.mem_range]
        exact hmem i (List.mem_toFinset.1 hi)
    _ = e.cap := Finset.card_range _

/-! ## Source outcome helpers and demonstration states -/

/-- Whether a configured source's fetch fails. -/
def srcFails : srcOutcome → Bool
  | some (Except.error _) => true
  | _ => false

/-- The ids a source contributes on success. -/
def srcIds : srcOutcome → List Int
  | some (Except.ok ids) => ids
  | _ => []

theorem readSrc_ok {s : srcOutcome} (h : srcFails s = false) (m : List Int) :
    readSrc s m = Except.ok (m ++ srcIds s) := by
  cases s with
  | none => simp [readSrc, srcIds]
  | some x =>
    cases x with
    | error e => simp [srcFails] at h
    | ok ids => simp [readSrc, srcIds]

theorem readSrc_fail {s : srcOutcome} (h : srcFails s = true) (m : List Int) :
    readSrc s m = Except.error () := by
  cases s with
  | none => simp [srcFails] at h
  | some x =>
    cases x with
    | error e => cases e; rfl
    | ok ids => simp [srcFails] at h

/-- A one-slot store holding the entry `⟨1, 1, 5⟩` created at time 0 with
TTL 5. -/
def eDemo : expiryMap := ((newExpiryMap 1).incNGet 1 5 0).1

/-- A demonstration configuration with no sources and no console. -/
def cfgDemo : Config :=
  { hitTableSize := 2, limit := -1, whitelistLimit := -1, expire := 10,
    whitelist := none, whitelistURL := none, blacklist := none,
    blacklistURL := none, console := false, consoleListen := Except.ok () }

/-- A demonstration filter state: empty store of capacity 2, deny list
`[9]`, no limits. -/
def rDemo : rateLimiter :=
  { config := cfgDemo, expire := 10, limit := -1, wlLimit := -1,
    whitelist := [], blacklist := [9], hits := newExpiryMap 2 }

/-- The demonstration filter with a failing deny-list source. -/
def rFail : rateLimiter :=
  { rDemo with config := { cfgDemo with blacklist := some (Except.error ()) } }

/-- The demonstration filter with both list sources succeeding. -/
def rOk : rateLimiter :=
  { rDemo with config :=
      { cfgDemo with whitelist := some (Except.ok [3]),
                     blacklist := some (Except.ok [9]) } }

/-! ## C4 — deny-list precedence and frame -/

/-- C4: a deny-listed id is rejected regardless of its hit count, the
limit values and allow-list membership, and the whole filter state — in
particular the counter store's index, queue, head and size — is left
unchanged by the hit. -/
theorem C4_denylist_reject_frame (r : rateLimiter) (id now : Int)
    (h : id ∈ r.blacklist) : rejectedTgID r id now = (true, r) := by
  unfold rejectedTgID
  rw [if_pos h]

/-- Witness for C4 at a concrete deny-listed id. -/
theorem C4_denylist_reject_frame_witness :
    (9 : Int) ∈ rDemo.blacklist ∧ rejectedTgID rDemo 9 0 = (true, rDemo) :=
  ⟨by decide, C4_denylist_reject_frame rDemo 9 0 (by decide)⟩

/-! ## C6 — reload atomicity -/

/-- C6: a reload in which any configured source fails returns the error
and leaves both lists exactly as they were; a fully successful reload
replaces both lists wholesale in one swap. -/
theorem C6_reload_atomicity (r : rateLimiter) :
    ((srcFails r.config.whitelist || srcFails r.config.whitelistURL ||
      srcFails r.config.blacklist || srcFails r.config.blacklistURL) = true →
      updateLists r = (r, true)) ∧
    ((srcFails r.config.whitelist || srcFails r.config.whitelistURL ||
      srcFails r.config.blacklist || srcFails r.config.blacklistURL) = false →
      updateLists r =
        ({ r with
            whitelist := srcIds r.config.whitelist ++ srcIds r.config.whitelistURL,
            blacklist := srcIds r.config.blacklist ++ srcIds r.config.blacklistURL },
          false)) := by
  constructor
  · intro h
    unfold updateLists
    by_cases h1 : srcFails r.config.whitelist = true
    · rw [readSrc_fail h1]
    · have h1f : srcFails r.config.whitelist = false := by
        revert h1; cases srcFails r.config.whitelist <;> simp
      rw [readSrc_ok h1f]
      dsimp only
      by_cases h2 : srcFails r.config.whitelistURL = true
      · rw [readSrc_fail h2]
      · have h2f : srcFails r.config.whitelistURL = false := by
          revert h2; cases srcFails r.config.whitelistURL <;> simp
        rw [readSrc_ok h2f]
        dsimp only
        by_cases h3 : srcFails r.config.blacklist = true
        · rw [readSrc_fail h3]
        · have h3f : srcFails r.config.blacklist = false := by
            revert h3; cases srcFails r.config.blacklist <;> simp
          rw [readSrc_ok h3f]
          dsimp only
          by_cases h4 : srcFails r.config.blacklistURL = true
          · rw [readSrc_fail h4]
          · exfalso
            have h4f : srcFails r.config.blacklistURL = false := by
              revert h4; cases srcFails r.config.blacklistURL <;> simp
            rw [h1f, h2f, h3f, h4f] at h
            simp at h
  · intro h
    simp only [Bool.or_eq_false_iff] at h
    obtain ⟨⟨⟨h1, h2⟩, h3⟩, h4⟩ := h
    unfold updateLists
    rw [readSrc_ok h1]
    dsimp only
    rw [readSrc_ok h2]
    dsimp only
    rw [readSrc_ok h3]
    dsimp only
    rw [readSrc_ok h4]
    simp

/-- Witness for C6: a failing deny-list source leaves both lists as they
were, a fully successful reload installs both fetched lists. -/
theorem C6_reload_atomicity_witness :
    updateLists rFail = (rFail, true) ∧
    updateLists rOk =
      ({ rOk with whitelist := [3], blacklist := [9] }, false) := by
  constructor
  · exact (C6_reload_atomicity rFail).1 (by decide)
  · have h := (C6_reload_atomicity rOk).2 (by decide)
    simpa [rOk, rDemo, cfgDemo, srcIds] using h

/-- A freshly inserted record is found by its id and stored verbatim. -/
theorem insert_fresh (e : expiryMap) (x : expiryHits) :
    ∃ pos, idxLookup (e.insert x).idxs x.id = some pos ∧
      (e.insert x).hits pos = x := by
  by_cases hf : e.size = e.cap
  · rw [insert_full x hf]
    refine ⟨((e.free 1).head + (e.free 1).size) % (e.free 1).cap, ?_, ?_⟩
    · rw [place_idxs, idxLookup_store_self]
    · rw [place_hits, updSlot_same]
  · rw [insert_not_full x hf]
    refine ⟨(e.head + e.size) % e.cap, ?_, ?_⟩
    · rw [place_idxs, idxLookup_store_self]
    · rw [place_hits, updSlot_same]

/-! ## C9 — reset semantics -/

/-- C9 counterexample to the claim as stated: in `eDemo` the entry for
id 1 expires at time 5, so at time 10 no live entry exists (`get` yields
0), yet `reset` still reports it as found and zeroes its counter. -/
theorem C9_reset_counterexample :
    eDemo.get 1 10 = 0 ∧
    (eDemo.reset 1).2 = true ∧
    (eDemo.hits 0).hits = 1 ∧
    ((eDemo.reset 1).1.hits 0).hits = 0 := by decide

/-- C9 (amended): `reset(id)` zeroes the count and returns `true` exactly
when an entry for the id is present in the index — live or expired — and
leaves the entry's presence, id, expiry and every other slot unchanged;
it never removes the entry. -/
theorem C9_reset_behavior (e : expiryMap) (id : Int) :
    (idxLookup e.idxs id = none → e.reset id = (e, false)) ∧
    (∀ idx, idxLookup e.idxs id = some idx →
      (e.reset id).2 = true ∧
      (e.reset id).1.idxs = e.idxs ∧
      (e.reset id).1.head = e.head ∧
      (e.reset id).1.size = e.size ∧
      (e.reset id).1.cap = e.cap ∧
      ((e.reset id).1.hits idx).hits = 0 ∧
      ((e.reset id).1.hits idx).id = (e.hits idx).id ∧
      ((e.reset id).1.hits idx).expires = (e.hits idx).expires ∧
      ∀ j, j ≠ idx → (e.reset id).1.hits j = e.hits j) := by
  constructor
  · intro h
    exact reset_absent h
  · intro idx h
    rw [reset_found h]
    refine ⟨rfl, rfl, rfl, rfl, rfl, ?_, ?_, ?_, ?_⟩
    · show (updSlot e.hits idx _ idx).hits = 0
      rw [updSlot_same]
    · show (updSlot e.hits idx _ idx).id = (e.hits idx).id
      rw [updSlot_same]
    · show (updSlot e.hits idx _ idx).expires = (e.hits idx).expires
      rw [updSlot_same]
    · intro j hj
      show updSlot e.hits idx _ j = e.hits j
      rw [updSlot_ne _ hj]

/-- Witness for C9's amended theorem on the demonstration store. -/
theorem C9_reset_behavior_witness :
    (eDemo.reset 1).2 = true ∧ (eDemo.reset 1).1.idxs = eDemo.idxs :=
  ⟨((C9_reset_behavior eDemo 1).2 0 (by decide)).1,
   ((C9_reset_behavior eDemo 1).2 0 (by decide)).2.1⟩

/-! ## C2 — TTL boundary behaviour -/

/-- C2 counterexample to the claim as stated: an entry created at time 0
with TTL 5 is hit again exactly at time `T0 + t = 5`; the claim requires
the count to reset to 1, but the code preserves the entry and returns 2
(the expiry test is strict). -/
theorem C2_ttl_counterexample :
    (eDemo.incNGet 1 5 5).2 = 2 ∧ ¬(eDemo.incNGet 1 5 5).2 = 1 := by decide

/-- C2 (amended): for an id whose entry in the store expires at
`T0 + t`, a hit observed strictly after `T0 + t` creates a fresh entry
with count 1 and expiry `T + t2`, and a hit observed at or before
`T0 + t` preserves the entry — same id and expiry — returning the
accumulated count incremented by one (as a wrapping `int32` increment). -/
theorem C2_ttl_behavior (e : expiryMap) (id t t2 T0 T : Int) (idx : Nat)
    (hl : idxLookup e.idxs id = some idx)
    (hexp : (e.hits idx).expires = T0 + t) :
    (T0 + t < T →
      (e.incNGet id t2 T).2 = 1 ∧
      ∃ pos, idxLookup (e.incNGet id t2 T).1.idxs id = some pos ∧
        (e.incNGet id t2 T).1.hits pos = ⟨id, 1, T + t2⟩) ∧
    (T ≤ T0 + t →
      (e.incNGet id t2 T).2 = wrap32 ((e.hits idx).hits + 1) ∧
      (e.incNGet id t2 T).1.hits idx =
        { e.hits idx with hits := wrap32 ((e.hits idx).hits + 1) } ∧
      (e.incNGet id t2 T).1.idxs = e.idxs) := by
  constructor
  · intro hT
    have hexp2 : (e.hits idx).expires < T := by rw [hexp]; exact hT
    rw [incNGet_expired hl hexp2]
    refine ⟨rfl, ?_⟩
    have hfresh := insert_fresh
      ({ e with idxs := idxErase e.idxs id,
                hits := updSlot e.hits idx { e.hits idx with id := isDeletedID } }
        : expiryMap) ⟨id, 1, T + t2⟩
    exact hfresh
  · intro hT
    have hexp2 : ¬(e.hits idx).expires < T := by rw [hexp]; omega
    rw [incNGet_live hl hexp2]
    refine ⟨rfl, ?_, rfl⟩
    show updSlot e.hits idx
        { e.hits idx with hits := wrap32 ((e.hits idx).hits + 1) } idx =
      { e.hits idx with hits := wrap32 ((e.hits idx).hits + 1) }
    rw [updSlot_same]

/-- Witness for C2's amended theorem on the demonstration store: a hit at
time 6 (strictly past expiry 5) resets the count to 1, a hit at time 3
increments it to 2. -/
theorem C2_ttl_behavior_witness :
    (eDemo.incNGet 1 5 6).2 = 1 ∧ (eDemo.incNGet 1 5 3).2 = 2 := by
  constructor
  · exact ((C2_ttl_behavior eDemo 1 5 5 0 6 0 (by decide) (by decide)).1
      (by decide)).1
  · have h := ((C2_ttl_behavior eDemo 1 5 5 0 3 0 (by decide) (by decide)).2
      (by decide)).1
    rw [h]
    decide

/-! ## C5 — eviction order -/

/-- Hit each id of a list once, in order. -/
def hitEach (e : expiryMap) (t now : Int) (ids : List Int) : expiryMap :=
  ids.foldl (fun acc id => (acc.incNGet id t now).1) e

theorem hitEach_append (e : expiryMap) (t now : Int) (l : List Int) (a : Int) :
    hitEach e t now (l ++ [a]) = ((hitEach e t now l).incNGet a t now).1 := by
  simp [hitEach, List.foldl_append]

/-- After hitting a list of distinct fresh ids once each from an empty
store with enough capacity, the queue holds them in order: id `i` of the
list is at slot `i` with count 1 and expiry `now + t`. -/
theorem hitEach_fresh (cap : Nat) (t now : Int) :
    ∀ l : List Int, l.Nodup → l.length ≤ cap →
      (hitEach (newExpiryMap cap) t now l).cap = cap ∧
      (hitEach (newExpiryMap cap) t now l).head = 0 ∧
      (hitEach (newExpiryMap cap) t now l).size = l.length ∧
      (∀ id, id ∉ l →
        idxLookup (hitEach (newExpiryMap cap) t now l).idxs id = none) ∧
      (∀ i, i < l.length →
        idxLookup (hitEach (newExpiryMap cap) t now l).idxs (l.getD i 0) = some i) ∧
      (∀ i, i < l.length →
        (hitEach (newExpiryMap cap) t now l).hits i = ⟨l.getD i 0, 1, now + t⟩) := by
  intro l
  induction l using List.reverseRecOn with
  | nil =>
    intro _ _
    refine ⟨rfl, rfl, rfl, fun id _ => rfl, ?_, ?_⟩
    · intro i hi
      cases hi
    · intro i hi
      cases hi
  | append_singleton l a ih =>
    intro hnd hlen
    have hndl : l.Nodup := hnd.of_append_left
    have ha : a ∉ l := by
      intro hal
      exact (List.disjoint_of_nodup_append hnd) hal (List.mem_singleton_self a)
    have hlenl : l.length + 1 ≤ cap := by
      simpa using hlen
    obtain ⟨ihcap, ihhead, ihsize, ihabs, ihfound, ihhits⟩ :=
      ih hndl (by omega)
    rw [hitEach_append]
    rw [incNGet_none (ihabs a ha)]
    have hnotfull : (hitEach (newExpiryMap cap) t now l).size ≠
        (hitEach (newExpiryMap cap) t now l).cap := by
      rw [ihsize, ihcap]
      omega
    rw [insert_not_full _ hnotfull]
    have hpos : ((hitEach (newExpiryMap cap) t now l).head +
        (hitEach (newExpiryMap cap) t now l).size) %
        (hitEach (newExpiryMap cap) t now l).cap = l.length := by
      rw [ihhead, ihsize, ihcap]
      simp [Nat.mod_eq_of_lt (by omega : l.length < cap)]
    refine ⟨by rw [place_cap, ihcap], by rw [place_head, ihhead], ?_, ?_, ?_, ?_⟩
    · rw [place_size, ihsize]
      simp
    · intro id hid
      simp only [List.mem_append, List.mem_singleton, not_or] at hid
      rw [place_idxs, idxLookup_store_ne hid.2, ihabs id hid.1]
    · intro i hi
      simp only [List.length_append, List.length_singleton] at hi
      rw [place_idxs]
      by_cases hil : i < l.length
      · rw [List.getD_append _ _ _ _ hil]
        have hmem : l.getD i 0 ∈ l := by
          rw [List.getD_eq_getElem _ _ hil]
          exact List.getElem_mem hil
        have hne : l.getD i 0 ≠ a := fun hc => ha (hc ▸ hmem)
        rw [idxLookup_store_ne hne, ihfound i hil]
      · have hieq : i = l.length := by omega
        subst hieq
        rw [List.getD_append_right _ _ _ _ (le_refl _), Nat.sub_self]
        have hga : [a].getD 0 0 = a := rfl
        rw [hga, hpos, idxLookup_store_self]
    · intro i hi
      simp only [List.length_append, List.length_singleton] at hi
      rw [place_hits, hpos]
      by_cases hil : i < l.length
      · rw [updSlot_ne _ (by omega), ihhits i hil, List.getD_append _ _ _ _ hil]
      · have hieq : i = l.length := by omega
        subst hieq
        rw [updSlot_same, List.getD_append_right _ _ _ _ (le_refl _), Nat.sub_self]
        have hga : [a].getD 0 0 = a := rfl
        rw [hga]

theorem pos_zero {cap : Nat} (hc : 0 < cap) : (1 % cap + (cap - 1)) % cap = 0 := by
  match cap, hc with
  | 1, _ => rfl
  | (c + 2), _ =>
    rw [Nat.mod_eq_of_lt (by omega : 1 < c + 2)]
    have h1 : 1 + (c + 2 - 1) = c + 2 := by omega
    rw [h1, Nat.mod_self]

/-- C5 counterexample to the claim as stated: capacity 2, three distinct
ids hit once each in order, all within TTL — but the first id is the
sentinel value, so after its slot is evicted `get` on it reads the third
id's slot and returns 1 instead of 0. -/
theorem C5_eviction_counterexample :
    (hitEach (newExpiryMap 2) 100 0 [isDeletedID, 7, 8]).get isDeletedID 0 = 1 ∧
    ¬(hitEach (newExpiryMap 2) 100 0 [isDeletedID, 7, 8]).get isDeletedID 0 = 0 := by
  decide

/-- C5 (amended): with capacity `cap` and `cap + 1` distinct ids hit once
each in order within TTL, provided the first id is not the sentinel
`-2^63`, `get` on the first id returns 0 and `get` on each of the other
`cap` ids returns 1. -/
theorem C5_eviction_order (cap : Nat) (t now : Int) (l : List Int) (b : Int)
    (hc : 0 < cap) (hlen : l.length = cap) (hnd : (l ++ [b]).Nodup)
    (hfirst : l.getD 0 0 ≠ isDeletedID) (ht : 0 ≤ t) :
    (hitEach (newExpiryMap cap) t now (l ++ [b])).get (l.getD 0 0) now = 0 ∧
    (∀ i, 1 ≤ i → i < cap →
      (hitEach (newExpiryMap cap) t now (l ++ [b])).get (l.getD i 0) now = 1) ∧
    (hitEach (newExpiryMap cap) t now (l ++ [b])).get b now = 1 := by
  have hndl : l.Nodup := hnd.of_append_left
  have hb : b ∉ l := fun hbl =>
    (List.disjoint_of_nodup_append hnd) hbl (List.mem_singleton_self b)
  obtain ⟨ihcap, ihhead, ihsize, ihabs, ihfound, ihhits⟩ :=
    hitEach_fresh cap t now l hndl (le_of_eq hlen)
  set e0 := hitEach (newExpiryMap cap) t now l with he0
  have hlfirst : 0 < l.length := by omega
  have hslot0 : e0.hits e0.head = ⟨l.getD 0 0, 1, now + t⟩ := by
    rw [ihhead]
    exact ihhits 0 hlfirst
  have hid0 : (e0.hits e0.head).id = l.getD 0 0 := by rw [hslot0]
  have hkept : (e0.hits e0.head).id ≠ isDeletedID := by rw [hid0]; exact hfirst
  have hfirstmem : l.getD 0 0 ∈ l := by
    rw [List.getD_eq_getElem _ _ hlfirst]
    exact List.getElem_mem hlfirst
  have hfb : l.getD 0 0 ≠ b := fun hc2 => hb (hc2 ▸ hfirstmem)
  rw [hitEach_append, incNGet_none (ihabs b hb),
    insert_full _ (by rw [ihsize, ihcap, hlen]),
    free_one (by rw [ihsize]; omega),
    freeStep_kept hkept]
  dsimp only
  have hpos : ((e0.head + 1) % e0.cap + (e0.size - 1)) % e0.cap = 0 := by
    rw [ihhead, ihsize, ihcap, hlen]
    simpa using pos_zero hc
  refine ⟨?_, ?_, ?_⟩
  · apply get_absent
    rw [place_idxs]
    dsimp only
    rw [idxLookup_store_ne hfb, hid0, idxLookup_erase_self]
  · intro i h1 h2
    have hil : i < l.length := by omega
    have himem : l.getD i 0 ∈ l := by
      rw [List.getD_eq_getElem _ _ hil]
      exact List.getElem_mem hil
    have hib : l.getD i 0 ≠ b := fun hc2 => hb (hc2 ▸ himem)
    have hif : l.getD i 0 ≠ l.getD 0 0 := by
      rw [List.getD_eq_getElem _ _ hil, List.getD_eq_getElem _ _ hlfirst]
      intro hcc
      have := (List.Nodup.getElem_inj_iff hndl).1 hcc
      omega
    have hlk2 : idxLookup
        (({ e0 with
            idxs := idxErase e0.idxs (e0.hits e0.head).id,
            hits := updSlot e0.hits e0.head { e0.hits e0.head with id := isDeletedID },
            head := (e0.head + 1) % e0.cap,
            size := e0.size - 1 } : expiryMap).place ⟨b, 1, now + t⟩).idxs
          (l.getD i 0) = some i := by
      rw [place_idxs]
      dsimp only
      rw [idxLookup_store_ne hib, hid0, idxLookup_erase_ne hif, ihfound i hil]
    rw [get_found hlk2, place_hits]
    dsimp only
    rw [hpos]
    have hih : i ≠ e0.head := by rw [ihhead]; omega
    rw [updSlot_ne _ (by omega : i ≠ 0), updSlot_ne _ hih, ihhits i hil]
    show (if now + t < now then (0 : Int) else 1) = 1
    rw [if_neg (by omega)]
  · have hlk2 : idxLookup
        (({ e0 with
            idxs := idxErase e0.idxs (e0.hits e0.head).id,
            hits := updSlot e0.hits e0.head { e0.hits e0.head with id := isDeletedID },
            head := (e0.head + 1) % e0.cap,
            size := e0.size - 1 } : expiryMap).place ⟨b, 1, now + t⟩).idxs b =
        some (((e0.head + 1) % e0.cap + (e0.size - 1)) % e0.cap) := by
      rw [place_idxs]
      dsimp only
      exact idxLookup_store_self _ _ _
    rw [get_found hlk2, place_hits]
    dsimp only
    rw [hpos, updSlot_same]
    show (if now + t < now then (0 : Int) else 1) = 1
    rw [if_neg (by omega)]

/-- Witness for C5's amended theorem: capacity 2, ids 1,2,3 hit in order;
id 1 is evicted, ids 2 and 3 read back count 1. -/
theorem C5_eviction_order_witness :
    (hitEach (newExpiryMap 2) 100 0 [1, 2, 3]).get 1 0 = 0 ∧
    (hitEach (newExpiryMap 2) 100 0 [1, 2, 3]).get 2 0 = 1 ∧
    (hitEach (newExpiryMap 2) 100 0 [1, 2, 3]).get 3 0 = 1 := by
  have h := C5_eviction_order 2 100 0 [1, 2] 3 (by decide) (by decide)
    (by decide) (by decide) (by decide)
  refine ⟨h.1, ?_, h.2.2⟩
  have h2 := h.2.1 1 (by decide) (by decide)
  simpa using h2

/-! ## C1 — capacity bound -/

/-- C1 counterexample to the claim as stated: with capacity 2, hitting
the sentinel id `-2^63` and then two ordinary ids leaves three live
entries in the id index — `free` refuses to delete the sentinel's
mapping, so the index outgrows the capacity even though the circular
queue itself stays at size 2. -/
theorem C1_capacity_counterexample :
    (runOps (newExpiryMap 2)
      [storeOp.inc isDeletedID 100 0, storeOp.inc 7 100 0,
       storeOp.inc 8 100 0]).idxs.length = 3 ∧
    ¬(runOps (newExpiryMap 2)
      [storeOp.inc isDeletedID 100 0, storeOp.inc 7 100 0,
       storeOp.inc 8 100 0]).idxs.length ≤ 2 ∧
    (runOps (newExpiryMap 2)
      [storeOp.inc isDeletedID 100 0, storeOp.inc 7 100 0,
       storeOp.inc 8 100 0]).size = 2 := by decide

/-- C1 (amended): for every sequence of store calls on a store of
positive capacity, the size of the circular queue never exceeds the
capacity; and provided no id equals the sentinel `-2^63`, the id index
also never outgrows the capacity. -/
theorem C1_capacity_invariant (cap : Nat) (hcap : 0 < cap) (ops : List storeOp) :
    (runOps (newExpiryMap cap) ops).size ≤ cap ∧
    ((∀ op ∈ ops, storeOp.opId op ≠ isDeletedID) →
      (runOps (newExpiryMap cap) ops).idxs.length ≤ cap) := by
  constructor
  · have h : WInv (runOps (newExpiryMap cap) ops) :=
      WInv_runOps ⟨hcap, hcap, Nat.zero_le _⟩
    have hc : (runOps (newExpiryMap cap) ops).cap = cap :=
      cap_runOps (newExpiryMap cap) ops
    exact le_trans h.2.2 (le_of_eq hc)
  · intro hid
    have h := StoreInv_runOps (StoreInv_newExpiryMap hcap) hid
    have hlen := idxs_length_le_cap h
    have hc : (runOps (newExpiryMap cap) ops).cap = cap :=
      cap_runOps (newExpiryMap cap) ops
    rwa [hc] at hlen

/-- Witness for C1's amended theorem: capacity 2 with three ordinary
distinct ids — both the queue and the index stay within capacity. -/
theorem C1_capacity_invariant_witness :
    (runOps (newExpiryMap 2)
      [storeOp.inc 5 100 0, storeOp.inc 7 100 0, storeOp.inc 8 100 0]).size ≤ 2 ∧
    (runOps (newExpiryMap 2)
      [storeOp.inc 5 100 0, storeOp.inc 7 100 0,
       storeOp.inc 8 100 0]).idxs.length ≤ 2 := by
  have h := C1_capacity_invariant 2 (by decide)
    [storeOp.inc 5 100 0, storeOp.inc 7 100 0, storeOp.inc 8 100 0]
  exact ⟨h.1, h.2 (by intro op hop; fin_cases hop <;> decide)⟩

/-! ## C10 — index/slot consistency and the sentinel corner case -/

/-- Every id present in the index maps to a queue slot whose stored id
equals that id. -/
def consistentIdx (e : expiryMap) : Prop :=
  ∀ p ∈ e.idxs, (e.hits p.2).id = p.1

/-- The store after hitting the sentinel id, then 7, then 8 twice, on a
capacity-2 store. -/
def eBad : expiryMap :=
  runOps (newExpiryMap 2)
    [storeOp.inc isDeletedID 100 0, storeOp.inc 7 100 0,
     storeOp.inc 8 100 0, storeOp.inc 8 100 0]

/-- C10: for every sequence of incNGet, get and reset calls whose ids
all differ from the sentinel `-2^63`, every id in the index maps to a
slot holding that id; and hitting the sentinel id itself can leave the
index pointing at a slot that holds a different id — in `eBad` the
sentinel's index entry points at slot 0, which holds id 8, so `get` on
the sentinel returns id 8's count 2 even though the sentinel was hit
only once. -/
theorem C10_sentinel_consistency :
    (∀ (cap : Nat) (ops : List storeOp), 0 < cap →
      (∀ op ∈ ops, storeOp.opId op ≠ isDeletedID) →
      consistentIdx (runOps (newExpiryMap cap) ops)) ∧
    (idxLookup eBad.idxs isDeletedID = some 0 ∧
      (eBad.hits 0).id = 8 ∧
      eBad.get isDeletedID 0 = 2 ∧
      eBad.get 8 0 = 2) := by
  constructor
  · intro cap ops hcap hid
    have h := StoreInv_runOps (StoreInv_newExpiryMap hcap) hid
    intro p hp
    exact (h.2.2.2.2 p hp).2.2
  · refine ⟨by decide, by decide, by decide, by decide⟩

/-- Witness for C10: a concrete sentinel-free run is consistent. -/
theorem C10_sentinel_consistency_witness :
    consistentIdx (runOps (newExpiryMap 2)
      [storeOp.inc 5 100 0, storeOp.inc 7 100 0, storeOp.clear 5]) :=
  C10_sentinel_consistency.1 2
    [storeOp.inc 5 100 0, storeOp.inc 7 100 0, storeOp.clear 5]
    (by decide) (by intro op hop; fin_cases hop <;> decide)

/-! ## C7 — propagation of reload errors -/

theorem updateLists_cases (r : rateLimiter) :
    updateLists r = (r, true) ∨ (updateLists r).2 = false := by
  unfold updateLists
  cases readSrc r.config.whitelist [] with
  | error e => left; rfl
  | ok wl1 =>
    dsimp only
    cases readSrc r.config.whitelistURL wl1 with
    | error e => left; rfl
    | ok wl =>
      dsimp only
      cases readSrc r.config.blacklist [] with
      | error e => left; rfl
      | ok bl1 =>
        dsimp only
        cases readSrc r.config.blacklistURL bl1 with
        | error e => left; rfl
        | ok bl => right; rfl

/-- C7 counterexample to the claim as stated: with a failing deny-list
source, construction still succeeds (`New` returns a handler, not the
error), and the administration reload command reports plain success
(204, state unchanged) instead of an error indication. -/
theorem C7_error_counterexample :
    (∃ r1, New { cfgDemo with blacklist := some (Except.error ()) } =
      Except.ok r1) ∧
    (updateLists rFail).2 = true ∧
    serveManagement rFail ["reload"] Method.POST "" 0 = (204, rFail) :=
  ⟨⟨_, rfl⟩, by decide, rfl⟩

/-- C7 (amended): list-source failures are swallowed, not propagated:
construction succeeds for any source outcomes whenever the table size is
positive and the management listener (if enabled) starts, and the
administration reload command answers 204 with the previous lists still
in force even when the reload failed. -/
theorem C7_reload_error_swallowed (c : Config) (r : rateLimiter)
    (body : String) (now : Int) :
    (0 < c.hitTableSize → (c.console = false ∨ c.consoleListen = Except.ok ()) →
      ∃ r1, New c = Except.ok r1) ∧
    ((updateLists r).2 = true →
      serveManagement r ["reload"] Method.POST body now = (204, r)) := by
  constructor
  · intro hsz hcon
    unfold New
    rw [if_neg (by omega)]
    by_cases hc2 : c.console
    · rcases hcon with hcf | hok
      · rw [hcf] at hc2
        cases hc2
      · rw [hc2, hok]
        exact ⟨_, rfl⟩
    · have : c.console = false := by
        revert hc2; cases c.console <;> simp
      rw [this]
      exact ⟨_, rfl⟩
  · intro hfail
    have hu : updateLists r = (r, true) := by
      rcases updateLists_cases r with h | h
      · exact h
      · rw [hfail] at h
        cases h
    show (204, (updateLists r).1) = (204, r)
    rw [hu]

/-- Witness for C7's amended theorem at a concrete failing config. -/
theorem C7_reload_error_swallowed_witness :
    (∃ r1, New rFail.config = Except.ok r1) ∧
    serveManagement rFail ["reload"] Method.POST "" 0 = (204, rFail) :=
  ⟨(C7_reload_error_swallowed rFail.config rFail "" 0).1 (by decide)
      (Or.inl (by decide)),
   (C7_reload_error_swallowed rFail.config rFail "" 0).2 (by decide)⟩

/-! ## C8 — unsupported methods on known paths -/

/-- C8 counterexample to the claim as stated: `POST` on the per-id hits
path — a known path supporting only `GET` and `DELETE` — is answered
with an implicit `200 OK` empty success, not a method-not-allowed
indication. -/
theorem C8_method_counterexample :
    (serveManagement rDemo ["hits", "123"] Method.POST "" 0).1 = 200 ∧
    ¬(serveManagement rDemo ["hits", "123"] Method.POST "" 0).1 = 405 := by
  decide

/-- C8 (amended): an unsupported verb yields 405 only on the list
membership and limit paths; on the per-id hits path it falls through to
an implicit 200 empty success, and on `/reload` and the all-hits path it
falls through to the 404 handler. -/
theorem C8_method_handling (r : rateLimiter) (body : String) (now : Int) :
    (∀ w s id m, parseTgID s = some id → w = "bl" ∨ w = "wl" →
      m ≠ Method.GET → m ≠ Method.DELETE → m ≠ Method.PUT →
      (serveManagement r ["list", w, s] m body now).1 = 405) ∧
    (∀ s m, s = "limit" ∨ s = "wllimit" → m ≠ Method.GET → m ≠ Method.PUT →
      (serveManagement r [s] m body now).1 = 405) ∧
    (∀ s id m, parseTgID s = some id → m ≠ Method.GET → m ≠ Method.DELETE →
      serveManagement r ["hits", s] m body now = (200, r)) ∧
    (∀ m, m ≠ Method.POST → (serveManagement r ["reload"] m body now).1 = 404) ∧
    (∀ m, m ≠ Method.GET → (serveManagement r ["hits"] m body now).1 = 404) := by
  refine ⟨?_, ?_, ?_, ?_, ?_⟩
  · intro w s id m hs hw hg hd hp
    rcases hw with hw | hw <;> subst hw <;>
      cases m <;> simp_all [serveManagement]
  · intro s m hs hg hp
    rcases hs with hs | hs <;> subst hs <;>
      cases m <;> simp_all [serveManagement]
  · intro s id m hs hg hd
    cases m <;> simp_all [serveManagement]
  · intro m hp
    cases m <;> simp_all [serveManagement]
  · intro m hg
    cases m <;> simp_all [serveManagement]

/-- Witness for C8's amended theorem at concrete requests. -/
theorem C8_method_handling_witness :
    (serveManagement rDemo ["list", "bl", "9"] Method.POST "" 0).1 = 405 ∧
    (serveManagement rDemo ["limit"] Method.DELETE "" 0).1 = 405 ∧
    serveManagement rDemo ["hits", "123"] Method.PUT "" 0 = (200, rDemo) ∧
    (serveManagement rDemo ["reload"] Method.GET "" 0).1 = 404 ∧
    (serveManagement rDemo ["hits"] Method.POST "" 0).1 = 404 :=
  ⟨(C8_method_handling rDemo "" 0).1 "bl" "9" 9 Method.POST (by decide)
      (Or.inl rfl) (by decide) (by decide) (by decide),
   (C8_method_handling rDemo "" 0).2.1 "limit" Method.DELETE (Or.inl rfl)
      (by decide) (by decide),
   (C8_method_handling rDemo "" 0).2.2.1 "123" 123 Method.PUT (by decide)
      (by decide) (by decide),
   (C8_method_handling rDemo "" 0).2.2.2.1 Method.GET (by decide),
   (C8_method_handling rDemo "" 0).2.2.2.2 Method.POST (by decide)⟩

/-! ## C3 — limit semantics -/

theorem updSlot_collapse (f : Nat → expiryHits) (i : Nat) (a b : expiryHits) :
    updSlot (updSlot f i a) i b = updSlot f i b := by
  funext j
  by_cases hj : j = i <;> simp [updSlot, hj]

/-- A store holding exactly one record, for `id` at slot 0. -/
def singleState (cap : Nat) (id cnt exp : Int) : expiryMap :=
  { cap := cap, idxs := [(id, 0)],
    hits := updSlot (fun _ => zeroHits) 0 ⟨id, cnt, exp⟩,
    head := 0, size := 1 }

theorem incNGet_single_base {cap : Nat} (hc : 0 < cap) (id t now : Int) :
    (newExpiryMap cap).incNGet id t now = (singleState cap id 1 (now + t), 1) := by
  have hlk : idxLookup (newExpiryMap cap).idxs id = none := rfl
  rw [incNGet_none hlk, insert_not_full _ (by simp [newExpiryMap]; omega)]
  unfold expiryMap.place newExpiryMap singleState
  dsimp only
  rw [show (0 + 0) % cap = 0 from by simp]
  rfl

theorem incNGet_single_step {cap : Nat} (id c exp t now : Int)
    (hexp : ¬exp < now) :
    (singleState cap id c exp).incNGet id t now =
      (singleState cap id (wrap32 (c + 1)) exp, wrap32 (c + 1)) := by
  have hl : idxLookup (singleState cap id c exp).idxs id = some 0 := by
    simp [singleState, idxLookup]
  have hs : (singleState cap id c exp).hits 0 = ⟨id, c, exp⟩ := by
    simp [singleState]
  rw [incNGet_live hl (by rw [hs]; exact hexp)]
  rw [hs]
  dsimp only
  rw [show (singleState cap id c exp).hits =
        updSlot (fun _ => zeroHits) 0 ⟨id, c, exp⟩ from rfl,
    updSlot_collapse]
  rfl

/-- The filter state after a non-deny-listed hit: only the store moved. -/
theorem rejectedTgID_state {r : rateLimiter} {id now : Int}
    (hbl : id ∉ r.blacklist) :
    (rejectedTgID r id now).2 =
      { r with hits := (r.hits.incNGet id r.expire now).1 } := by
  unfold rejectedTgID
  rw [if_neg hbl]
  by_cases hwl : id ∈ r.whitelist <;> simp [hwl]

/-- The decision for a non-listed id compares the regular limit. -/
theorem rejectedTgID_decision_reg {r : rateLimiter} {id now : Int}
    (hbl : id ∉ r.blacklist) (hwl : id ∉ r.whitelist) :
    (rejectedTgID r id now).1 =
      (decide (0 ≤ r.limit) &&
        decide (r.limit < (r.hits.incNGet id r.expire now).2)) := by
  unfold rejectedTgID
  rw [if_neg hbl]
  simp [hwl]

/-- The decision for an allow-listed id compares the whitelist limit. -/
theorem rejectedTgID_decision_wl {r : rateLimiter} {id now : Int}
    (hbl : id ∉ r.blacklist) (hwl : id ∈ r.whitelist) :
    (rejectedTgID r id now).1 =
      (decide (0 ≤ r.wlLimit) &&
        decide (r.wlLimit < (r.hits.incNGet id r.expire now).2)) := by
  unfold rejectedTgID
  rw [if_neg hbl]
  simp [hwl]

/-- Repeated hits of the same id through the decider. -/
def hitFilterN (r : rateLimiter) (id now : Int) : Nat → rateLimiter
  | 0 => r
  | n + 1 => (rejectedTgID (hitFilterN r id now n) id now).2

/-- The decision of hit number `n + 1` on the same id. -/
def decisionAt (r : rateLimiter) (id now : Int) (n : Nat) : Bool :=
  (rejectedTgID (hitFilterN r id now n) id now).1

/-- Closed form of the filter state after `n + 1` hits of a single
non-deny-listed id on an initially empty store. -/
theorem hitFilterN_closed {r : rateLimiter} {cap : Nat} {id : Int} (now : Int)
    (hc : 0 < cap) (hbl : id ∉ r.blacklist) (ht : 0 ≤ r.expire)
    (hhits : r.hits = newExpiryMap cap) :
    ∀ n : Nat, hitFilterN r id now (n + 1) =
      { r with hits := singleState cap id (wrap32 ((n : Int) + 1)) (now + r.expire) } := by
  intro n
  induction n with
  | zero =>
    show (rejectedTgID r id now).2 = _
    rw [rejectedTgID_state hbl, hhits, incNGet_single_base hc]
    rw [show wrap32 ((0 : Nat) + 1 : Int) = 1 from by
      rw [wrap32_small (by norm_num) (by norm_num)]
      norm_num]
  | succ n ih =>
    show (rejectedTgID (hitFilterN r id now (n + 1)) id now).2 = _
    have hbl2 : id ∉ ({ r with
        hits := singleState cap id (wrap32 ((n : Int) + 1)) (now + r.expire) }
          : rateLimiter).blacklist := hbl
    rw [ih, rejectedTgID_state hbl2]
    dsimp only
    rw [incNGet_single_step _ _ _ _ _ (by omega)]
    dsimp only
    rw [wrap32_wrap_add]
    have hcast : ((n : Int) + 1) + 1 = (((n + 1 : Nat) : Int) + 1) := by
      push_cast
      ring
    rw [hcast]

/-- Closed form of the decision of hit `n + 1` for a regular id. -/
theorem decisionAt_closed {r : rateLimiter} {cap : Nat} {id : Int} (now : Int)
    (hc : 0 < cap) (hbl : id ∉ r.blacklist) (hwl : id ∉ r.whitelist)
    (ht : 0 ≤ r.expire) (hhits : r.hits = newExpiryMap cap) :
    ∀ n : Nat, decisionAt r id now n =
      (decide (0 ≤ r.limit) && decide (r.limit < wrap32 ((n : Int) + 1))) := by
  intro n
  cases n with
  | zero =>
    show (rejectedTgID r id now).1 = _
    rw [rejectedTgID_decision_reg hbl hwl, hhits, incNGet_single_base hc]
    rw [show wrap32 ((0 : Nat) + 1 : Int) = 1 from by
      rw [wrap32_small (by norm_num) (by norm_num)]
      norm_num]
  | succ n =>
    show (rejectedTgID (hitFilterN r id now (n + 1)) id now).1 = _
    have hbl2 : id ∉ ({ r with
        hits := singleState cap id (wrap32 ((n : Int) + 1)) (now + r.expire) }
          : rateLimiter).blacklist := hbl
    have hwl2 : id ∉ ({ r with
        hits := singleState cap id (wrap32 ((n : Int) + 1)) (now + r.expire) }
          : rateLimiter).whitelist := hwl
    rw [hitFilterN_closed now hc hbl ht hhits n, rejectedTgID_decision_reg hbl2 hwl2]
    dsimp only
    rw [incNGet_single_step _ _ _ _ _ (by omega)]
    dsimp only
    rw [wrap32_wrap_add]
    have hcast : ((n : Int) + 1) + 1 = (((n + 1 : Nat) : Int) + 1) := by
      push_cast
      ring
    rw [hcast]

/-- Closed form of the decision of hit `n + 1` for an allow-listed id. -/
theorem decisionAt_closed_wl {r : rateLimiter} {cap : Nat} {id : Int} (now : Int)
    (hc : 0 < cap) (hbl : id ∉ r.blacklist) (hwl : id ∈ r.whitelist)
    (ht : 0 ≤ r.expire) (hhits : r.hits = newExpiryMap cap) :
    ∀ n : Nat, decisionAt r id now n =
      (decide (0 ≤ r.wlLimit) && decide (r.wlLimit < wrap32 ((n : Int) + 1))) := by
  intro n
  cases n with
  | zero =>
    show (rejectedTgID r id now).1 = _
    rw [rejectedTgID_decision_wl hbl hwl, hhits, incNGet_single_base hc]
    rw [show wrap32 ((0 : Nat) + 1 : Int) = 1 from by
      rw [wrap32_small (by norm_num) (by norm_num)]
      norm_num]
  | succ n =>
    show (rejectedTgID (hitFilterN r id now (n + 1)) id now).1 = _
    have hbl2 : id ∉ ({ r with
        hits := singleState cap id (wrap32 ((n : Int) + 1)) (now + r.expire) }
          : rateLimiter).blacklist := hbl
    have hwl2 : id ∈ ({ r with
        hits := singleState cap id (wrap32 ((n : Int) + 1)) (now + r.expire) }
          : rateLimiter).whitelist := hwl
    rw [hitFilterN_closed now hc hbl ht hhits n, rejectedTgID_decision_wl hbl2 hwl2]
    dsimp only
    rw [incNGet_single_step _ _ _ _ _ (by omega)]
    dsimp only
    rw [wrap32_wrap_add]
    have hcast : ((n : Int) + 1) + 1 = (((n + 1 : Nat) : Int) + 1) := by
      push_cast
      ring
    rw [hcast]

/-- A filter with regular limit 1, no lists, capacity 1, TTL 100. -/
def rLim : rateLimiter :=
  { config := cfgDemo, expire := 100, limit := 1, wlLimit := -1,
    whitelist := [], blacklist := [], hits := newExpiryMap 1 }

/-- A filter with regular limit 0 and allow limit 2, id 5 allow-listed. -/
def rWl : rateLimiter :=
  { config := cfgDemo, expire := 100, limit := 0, wlLimit := 2,
    whitelist := [5], blacklist := [], hits := newExpiryMap 1 }

/-- C3 counterexample to the claim as stated: with limit `k = 1`, hit
number 2 is rejected as the claim demands, but hit number `2^31` — still
within the TTL window — is accepted again: the `int32` hit counter wraps
to `-2^31`, which no longer exceeds the limit. "Every hit numbered k+1
onward is rejected until TTL expiry" is therefore false. -/
theorem C3_limit_counterexample :
    decisionAt rLim 5 0 1 = true ∧
    decisionAt rLim 5 0 (2 ^ 31 - 1) = false := by
  constructor
  · decide
  · have h := decisionAt_closed 0 (by decide : 0 < 1)
      (by decide : (5 : Int) ∉ rLim.blacklist)
      (by decide : (5 : Int) ∉ rLim.whitelist)
      (by decide : (0 : Int) ≤ rLim.expire)
      (rfl : rLim.hits = newExpiryMap 1) (2 ^ 31 - 1)
    rw [h]
    have hcast : (((2 ^ 31 - 1 : Nat) : Int) + 1) = 2 ^ 31 := by norm_num
    rw [hcast]
    have hw : wrap32 (2 ^ 31) = -(2 ^ 31) := by
      unfold wrap32
      decide
    rw [hw]
    decide

/-- C3 (amended): on a fresh store, for a non-deny-listed id: limit 0
rejects the very first hit; limit −1 never rejects, no matter how many
hits; limit `k > 0` accepts hits 1..k and rejects hits k+1 onward as
long as the hit number stays below `2^31` (the `int32` counter overflows
at hit `2^31`, after which the rejection can lapse until TTL expiry
resets the count); and an allow-listed id obeys the same rule with the
whitelist limit in place of the regular limit. -/
theorem C3_limit_semantics (r : rateLimiter) (cap : Nat) (id now : Int)
    (hc : 0 < cap) (hbl : id ∉ r.blacklist) (ht : 0 ≤ r.expire)
    (hhits : r.hits = newExpiryMap cap) :
    (id ∉ r.whitelist →
      (r.limit = 0 → decisionAt r id now 0 = true) ∧
      (r.limit = -1 → ∀ n, decisionAt r id now n = false) ∧
      (0 < r.limit → r.limit < 2 ^ 31 →
        ∀ n : Nat, (n : Int) + 1 ≤ 2 ^ 31 - 1 →
          decisionAt r id now n = decide (r.limit < (n : Int) + 1))) ∧
    (id ∈ r.whitelist →
      (r.wlLimit = 0 → decisionAt r id now 0 = true) ∧
      (r.wlLimit = -1 → ∀ n, decisionAt r id now n = false) ∧
      (0 < r.wlLimit → r.wlLimit < 2 ^ 31 →
        ∀ n : Nat, (n : Int) + 1 ≤ 2 ^ 31 - 1 →
          decisionAt r id now n = decide (r.wlLimit < (n : Int) + 1))) := by
  constructor
  · intro hwl
    have hform := decisionAt_closed now hc hbl hwl ht hhits
    refine ⟨?_, ?_, ?_⟩
    · intro hl0
      rw [hform 0, hl0]
      rw [show wrap32 ((0 : Nat) + 1 : Int) = 1 from by
        rw [wrap32_small (by norm_num) (by norm_num)]
        norm_num]
      decide
    · intro hlm n
      rw [hform n, hlm]
      simp
    · intro hk hk31 n hn
      rw [hform n]
      rw [wrap32_small (by omega) (by omega)]
      have h0k : decide (0 ≤ r.limit) = true := by
        simp
        omega
      rw [h0k, Bool.true_and]
  · intro hwl
    have hform := decisionAt_closed_wl now hc hbl hwl ht hhits
    refine ⟨?_, ?_, ?_⟩
    · intro hl0
      rw [hform 0, hl0]
      rw [show wrap32 ((0 : Nat) + 1 : Int) = 1 from by
        rw [wrap32_small (by norm_num) (by norm_num)]
        norm_num]
      decide
    · intro hlm n
      rw [hform n, hlm]
      simp
    · intro hk hk31 n hn
      rw [hform n]
      rw [wrap32_small (by omega) (by omega)]
      have h0k : decide (0 ≤ r.wlLimit) = true := by
        simp
        omega
      rw [h0k, Bool.true_and]

/-- Witness for C3's amended theorem: limit 1 accepts hit 1 and rejects
hit 2; limit −1 never rejects (hit 4 shown); an allow-listed id under
allow-limit 2 is accepted on hit 1 despite the regular limit 0. -/
theorem C3_limit_semantics_witness :
    decisionAt rLim 5 0 0 = false ∧
    decisionAt rLim 5 0 1 = true ∧
    decisionAt rDemo 5 0 3 = false ∧
    decisionAt rWl 5 0 0 = false := by
  have h1 := (C3_limit_semantics rLim 1 5 0 (by decide) (by decide) (by decide)
    rfl).1 (by decide)
  have h2 := (C3_limit_semantics rDemo 2 5 0 (by decide) (by decide) (by decide)
    rfl).1 (by decide)
  have h3 := (C3_limit_semantics rWl 1 5 0 (by decide) (by decide) (by decide)
    rfl).2 (by decide)
  refine ⟨?_, ?_, ?_, ?_⟩
  · have := h1.2.2 (by decide) (by decide) 0 (by norm_num)
    rw [this]
    decide
  · have := h1.2.2 (by decide) (by decide) 1 (by norm_num)
    rw [this]
    decide
  · exact h2.2.1 (by decide) 3
  · have := h3.2.2 (by decide) (by decide) 0 (by norm_num)
    rw [this]
    decide
